import Mathlib

/-!
Shallow embedding of the vBucket subsystem of `kv_engine`
(`src/vbucket.cc`) together with theorems settling the frozen claims.

Conventions of the embedding:

* machine integers (`uint16_t`, `uint64_t`, `size_t`) are modelled as `Nat`;
  where two's-complement wraparound of `uint64_t` matters we take the value
  modulo `2 ^ 64` explicitly (see `hrtimeSub`);
* opaque connection cookies (`const void *`) are modelled as `Nat`;
* document keys are modelled as `Nat` (their identity is all the claims use);
* the side effect of calling `engine.notifyIOComplete(cookie, code)` is
  modelled by returning the collection of `(cookie, code)` pairs the C++
  function passes to `notifyIOComplete`; a function that makes no such call
  returns an empty collection;
* `std::map<const void*, ENGINE_ERROR_CODE> toNotify` is modelled as an
  association list with map semantics: a later `toNotify[k] = v` overwrites
  an earlier binding of `k` (`mapInsert`); the C++ map fires one
  `notifyIOComplete` per key, so "notified" means membership in the final
  association list (iteration order of `std::map` is irrelevant to the
  claims).
-/

set_option autoImplicit false

namespace KVEngine

/-- The `ENGINE_ERROR_CODE` values used by `vbucket.cc`. -/
inductive EngineCode where
  | success
  | tmpfail
  | notMyVBucket
  deriving DecidableEq, Repr

/-- `vbucket_state_t`: the four vBucket states. -/
inductive VBState where
  | active
  | replica
  | pending
  | dead
  deriving DecidableEq, Repr

/-- `bfilter_status_t`. Modelled from the spec: the header defining the
enum is not among the provided sources; §3 of the spec gives
`status ∈ {Disabled, Enabled, Compacting}`. -/
inductive BFilterStatus where
  | disabled
  | compacting
  | enabled
  deriving DecidableEq, Repr

/-- Modelled from the spec: `BloomFilter` (`bloomfilter.cc` is not among
the provided sources) — a probe structure with a mutable status and an
abstract membership probe `maybeKeyExists` (§4.4 of the spec). -/
structure BloomFilter where
  status : BFilterStatus
  maybeKeyExists : Nat → Bool

/-- `BloomFilter::setStatus`. Modelled from the spec: a plain setter. -/
def BloomFilter.setStatus (f : BloomFilter) (st : BFilterStatus) : BloomFilter :=
  { f with status := st }

/-- `HighPriorityVBEntry` (declared in `vbucket.h`): a persistence waiter.
`start` is the `gethrtime()` nanosecond stamp taken at registration. -/
structure HighPriorityVBEntry where
  cookie : Nat
  id : Nat
  isBySeqno : Bool
  start : Nat
  deriving DecidableEq, Repr

/-- One queued background fetch (`VBucketBGFetchItem`): the waiting cookie
and whether only metadata was requested. -/
structure VBucketBGFetchItem where
  cookie : Nat
  metaDataOnly : Bool
  deriving DecidableEq, Repr

/-- Modelled from the spec: the `CheckpointManager` (`checkpoint.cc` is
not among the provided sources). The claims only need the open
checkpoint id, read by `getOpenCheckpointId` and written by
`setOpenCheckpointId`. -/
structure CheckpointManager where
  openCheckpointId : Nat
  deriving DecidableEq, Repr

/-- `CheckpointManager::setOpenCheckpointId`. Modelled from the spec: a
setter of the open checkpoint id. -/
def CheckpointManager.setOpenCheckpointId (cm : CheckpointManager) (n : Nat) :
    CheckpointManager :=
  { cm with openCheckpointId := n }

/-- The `VBucket` fields the claims are about.  `pendingBGFetches` models
the `std::unordered_map<DocKey, vb_bgfetch_item_ctx_t>` as an association
list from key to the list of queued fetch items. -/
structure VBucket where
  state : VBState
  checkpointManager : CheckpointManager
  pendingOps : List Nat
  pendingOpsStart : Nat
  hpChks : List HighPriorityVBEntry
  pendingBGFetches : List (Nat × List VBucketBGFetchItem)
  bFilter : Option BloomFilter
  tempFilter : Option BloomFilter

/-! ## VBucketFilter (`vbucket.h` / `vbucket.cc` lines 37–109)

`VBucketFilter::acceptable` is a `std::set<uint16_t>`; we model it as the
sorted duplicate-free list of its elements in ascending order. -/

/-- `VBucketFilter`: a set of vBucket ids. -/
structure VBucketFilter where
  acceptable : List Nat
  deriving DecidableEq, Repr

/-- `std::set_symmetric_difference` on two sorted ranges, as specified by
the C++ standard (the merge keeps elements appearing in exactly one
range, comparing heads with `<`). -/
def set_symmetric_difference : List Nat → List Nat → List Nat
  | [], b => b
  | a, [] => a
  | x :: xs, y :: ys =>
    if x < y then x :: set_symmetric_difference xs (y :: ys)
    else if y < x then y :: set_symmetric_difference (x :: xs) ys
    else set_symmetric_difference xs ys
  termination_by a b => a.length + b.length

/-- `std::set_intersection` on two sorted ranges, as specified by the C++
standard. -/
def set_intersection : List Nat → List Nat → List Nat
  | [], _ => []
  | _, [] => []
  | x :: xs, y :: ys =>
    if x < y then set_intersection xs (y :: ys)
    else if y < x then set_intersection (x :: xs) ys
    else x :: set_intersection xs ys
  termination_by a b => a.length + b.length

/-- `VBucketFilter::filter_diff` (vbucket.cc:37): the symmetric
difference of the two id sets. -/
def VBucketFilter.filter_diff (f other : VBucketFilter) : VBucketFilter :=
  ⟨set_symmetric_difference f.acceptable other.acceptable⟩

/-- `VBucketFilter::filter_intersection` (vbucket.cc:48). -/
def VBucketFilter.filter_intersection (f other : VBucketFilter) : VBucketFilter :=
  ⟨set_intersection f.acceptable other.acceptable⟩

/-! ## The stream printer (`vbucket.cc` lines 60–109) -/

/-- The loop counter of `isRange` (vbucket.cc:60): starting from an
expected value `val`, the length of the longest prefix of the list whose
`j`-th element equals `val + j`.  In the C++, `length` after the loop is
exactly this count (the loop condition is `(val + length) == *it`). -/
def countRun (val : Nat) : List Nat → Nat
  | [] => 0
  | x :: xs => if x = val then 1 + countRun (val + 1) xs else 0

/-- The printing loop of `operator<<` (vbucket.cc:85–104).  At each
element the code calls `isRange`, which reports `length > 1` where
`length` is `countRun` of the remaining elements minus one; a run of
three or more is printed as `[lo,hi]` (with `hi` read from the iterator
advanced `length` steps) and the iterator jumps to `hi`; otherwise the
single element is printed. -/
def printLoop : Bool → List Nat → String
  | _, [] => ""
  | needcomma, y :: ys =>
    if 1 < countRun y (y :: ys) - 1 then
      (if needcomma then ", " else "") ++ "[" ++ toString y ++ ","
        ++ toString ((y :: ys).getD (countRun y (y :: ys) - 1) 0) ++ "]"
        ++ printLoop true (ys.drop (countRun y (y :: ys) - 1))
    else
      (if needcomma then ", " else "") ++ toString y ++ printLoop true ys
  termination_by _ l => l.length
  decreasing_by
    · simp only [List.length_drop, List.length_cons]; omega
    · simp only [List.length_cons]; omega

/-- `operator<<(std::ostream&, const VBucketFilter&)` (vbucket.cc:76),
as the string it appends to the stream. -/
def vbFilterPrint (filter : VBucketFilter) : String :=
  if filter.acceptable.isEmpty then "\x7b empty \x7d"
  else "\x7b " ++ printLoop false filter.acceptable ++ " \x7d"

/-! Specification-side printer, written from the words of the claim:
split the ids into maximal runs of consecutive values, print a run of
three or more as `[lo,hi]`, shorter runs element by element, all
comma-separated inside braces. -/

/-- Split a list into maximal blocks of consecutive values (each block
`[v, v+1, v+2, ...]`). -/
def chunkRuns : List Nat → List (List Nat)
  | [] => []
  | x :: xs =>
    match chunkRuns xs with
    | (y :: ys) :: rest =>
      if x + 1 = y then (x :: y :: ys) :: rest else [x] :: (y :: ys) :: rest
    | other => [x] :: other

/-- Comma-join a list of strings. -/
def joinComma : List String → String
  | [] => ""
  | [s] => s
  | s :: rest => s ++ ", " ++ joinComma rest

/-- Render one maximal run: `[lo,hi]` when it has three or more ids,
otherwise the ids individually, comma separated. -/
def renderRun (r : List Nat) : String :=
  if 3 ≤ r.length then
    "[" ++ toString (r.headD 0) ++ "," ++ toString (r.getLastD 0) ++ "]"
  else
    joinComma (r.map toString)

/-- The printer as the claim describes it. -/
def vbFilterPrintSpec (filter : VBucketFilter) : String :=
  if filter.acceptable.isEmpty then "\x7b empty \x7d"
  else "\x7b " ++ joinComma ((chunkRuns filter.acceptable).map renderRun) ++ " \x7d"

/-! ## Adaptive checkpoint-flush timeout (`vbucket.cc` lines 489–507)

`MIN_CHK_FLUSH_TIMEOUT` / `MAX_CHK_FLUSH_TIMEOUT` are modelled from the
spec: `vbucket.h` is not among the provided sources; §6 of the spec says
only that they are bounds in seconds with the middle of the interval as
the first widening step.  They are kept as parameters `minT`, `maxT`. -/

/-- `VBucket::adjustCheckpointFlushTimeout` (vbucket.cc:489).  Note that
the C++ function writes `chkFlushTimeout` without reading it: the new
value depends only on `wall_time`. -/
def adjustCheckpointFlushTimeout (minT maxT wall_time : Nat) : Nat :=
  if wall_time ≤ minT then minT
  else if wall_time ≤ (minT + maxT) / 2 then (minT + maxT) / 2
  else maxT

/-! ## Saturating statistics decrements (`vbucket.cc` lines 924–961)

Each C++ function is a compare-exchange retry loop; a successful
iteration atomically replaces the counter value `oldVal` by
`oldVal < decrementBy ? 0 : oldVal - decrementBy`, which is the function
below.  The loop only repeats when another thread intervened, so every
individual update the program ever applies is one application of it. -/

/-- `VBucket::decrDirtyQueueMem` (vbucket.cc:924): the value stored for
current value `dirtyQueueMem` and argument `decrementBy`. -/
def decrDirtyQueueMem (dirtyQueueMem decrementBy : Nat) : Nat :=
  if dirtyQueueMem < decrementBy then 0 else dirtyQueueMem - decrementBy

/-- `VBucket::decrDirtyQueueAge` (vbucket.cc:937). -/
def decrDirtyQueueAge (dirtyQueueAge decrementBy : Nat) : Nat :=
  if dirtyQueueAge < decrementBy then 0 else dirtyQueueAge - decrementBy

/-- `VBucket::decrDirtyQueuePendingWrites` (vbucket.cc:950). -/
def decrDirtyQueuePendingWrites (dirtyQueuePendingWrites decrementBy : Nat) : Nat :=
  if dirtyQueuePendingWrites < decrementBy then 0
  else dirtyQueuePendingWrites - decrementBy

/-! ## The `toNotify` map and notification sweeps -/

/-- `toNotify[k] = v` on a `std::map` modelled as an association list:
replace the binding of `k` if present, else append it. -/
def mapInsert (k : Nat) (v : EngineCode) :
    List (Nat × EngineCode) → List (Nat × EngineCode)
  | [] => [(k, v)]
  | (k', v') :: rest =>
    if k' = k then (k, v) :: rest else (k', v') :: mapInsert k v rest

/-- The keys of a `toNotify` map. -/
def mapKeys (m : List (Nat × EngineCode)) : List Nat :=
  m.map Prod.fst

/-- `gethrtime()` difference (`uint64_t` subtraction `now - start`,
wrapping modulo `2 ^ 64`; both operands are below `2 ^ 64`). -/
def hrtimeSub (now start : Nat) : Nat :=
  (2 ^ 64 + now - start) % 2 ^ 64

/-- Result of the `notifyOnPersistence` waiter walk: the surviving
entries, the `toNotify` map, and the final `chkFlushTimeout`. -/
structure NotifyOnPersistenceResult where
  hpChks : List HighPriorityVBEntry
  toNotify : List (Nat × EngineCode)
  chkFlushTimeout : Nat
  deriving DecidableEq, Repr

/-- The waiter-list walk of `VBucket::notifyOnPersistence`
(vbucket.cc:399–438).  The process-wide `chkFlushTimeout` is threaded as
`timeout` because the loop both reads it (`getCheckpointFlushTimeout`)
and writes it (`adjustCheckpointFlushTimeout`).  `now` is `gethrtime()`
at entry. -/
def notifyLoop (minT maxT now idNum : Nat) (isBySeqno : Bool) :
    List HighPriorityVBEntry → Nat → List (Nat × EngineCode) →
    NotifyOnPersistenceResult
  | [], timeout, acc => ⟨[], acc, timeout⟩
  | e :: rest, timeout, acc =>
    if isBySeqno ≠ e.isBySeqno then
      ⟨e :: (notifyLoop minT maxT now idNum isBySeqno rest timeout acc).hpChks,
       (notifyLoop minT maxT now idNum isBySeqno rest timeout acc).toNotify,
       (notifyLoop minT maxT now idNum isBySeqno rest timeout acc).chkFlushTimeout⟩
    else
      if e.id ≤ idNum then
        notifyLoop minT maxT now idNum isBySeqno rest
          (adjustCheckpointFlushTimeout minT maxT (hrtimeSub now e.start / 1000000000))
          (mapInsert e.cookie EngineCode.success acc)
      else if timeout < hrtimeSub now e.start / 1000000000 then
        notifyLoop minT maxT now idNum isBySeqno rest
          (adjustCheckpointFlushTimeout minT maxT (hrtimeSub now e.start / 1000000000))
          (mapInsert e.cookie EngineCode.tmpfail acc)
      else
        ⟨e :: (notifyLoop minT maxT now idNum isBySeqno rest timeout acc).hpChks,
         (notifyLoop minT maxT now idNum isBySeqno rest timeout acc).toNotify,
         (notifyLoop minT maxT now idNum isBySeqno rest timeout acc).chkFlushTimeout⟩

/-- `VBucket::notifyOnPersistence` (vbucket.cc:388): walks `hpChks`,
then calls `notifyIOComplete` once per entry of the final `toNotify`
map.  Returns the updated vBucket, the notifications made, and the new
process-wide `chkFlushTimeout`. -/
def VBucket.notifyOnPersistence (vb : VBucket) (minT maxT timeout now idNum : Nat)
    (isBySeqno : Bool) : VBucket × List (Nat × EngineCode) × Nat :=
  let r := notifyLoop minT maxT now idNum isBySeqno vb.hpChks timeout []
  ({ vb with hpChks := r.hpChks }, r.toNotify, r.chkFlushTimeout)

/-! ## State transitions and mass cancellation -/

/-- `VBucket::setState` (vbucket.cc:263).  The second component is the
list of `notifyIOComplete` calls the function makes — the C++ body only
transitions the state (bumping the open checkpoint id when the target is
active), so it is empty. -/
def VBucket.setState (vb : VBucket) (toState : VBState) :
    VBucket × List (Nat × EngineCode) :=
  let cm :=
    if toState = VBState.active ∧ vb.checkpointManager.openCheckpointId < 2 then
      vb.checkpointManager.setOpenCheckpointId 2
    else vb.checkpointManager
  ({ vb with state := toState, checkpointManager := cm }, [])

/-- `VBucket::fireAllOps(engine, code)` (vbucket.cc:218): when
`pendingOpsStart > 0`, pops every pending op from the back and notifies
it with `code`; otherwise returns without touching the list. -/
def VBucket.fireAllOps (vb : VBucket) (code : EngineCode) :
    VBucket × List (Nat × EngineCode) :=
  if 0 < vb.pendingOpsStart then
    ({ vb with pendingOps := [], pendingOpsStart := 0 },
     vb.pendingOps.reverse.map fun c => (c, code))
  else (vb, [])

/-- `VBucket::fireAllOps(engine)` (vbucket.cc:252): dispatch on the
current state. -/
def VBucket.fireAllOpsForState (vb : VBucket) : VBucket × List (Nat × EngineCode) :=
  if vb.state = VBState.active then vb.fireAllOps EngineCode.success
  else if vb.state = VBState.pending then (vb, [])
  else vb.fireAllOps EngineCode.notMyVBucket

/-- The high-priority-waiter sweep of `notifyAllPendingConnsFailed`
(vbucket.cc:452–461): every entry is erased and its cookie mapped to
`ENGINE_TMPFAIL`. -/
def notifyHpLoop : List HighPriorityVBEntry → List (Nat × EngineCode) →
    List (Nat × EngineCode)
  | [], acc => acc
  | e :: rest, acc => notifyHpLoop rest (mapInsert e.cookie EngineCode.tmpfail acc)

/-- The background-fetch sweep of `notifyAllPendingConnsFailed`
(vbucket.cc:465–479): every queued fetch item's cookie is mapped to
`ENGINE_NOT_MY_VBUCKET`. -/
def notifyBgLoop : List (Nat × List VBucketBGFetchItem) →
    List (Nat × EngineCode) → List (Nat × EngineCode)
  | [], acc => acc
  | (_, ctx) :: rest, acc =>
    notifyBgLoop rest
      (ctx.foldl (fun m item => mapInsert item.cookie EngineCode.notMyVBucket m) acc)

/-- `VBucket::notifyAllPendingConnsFailed` (vbucket.cc:449): sweeps the
high-priority waiters into `toNotify` as `TempFail`, sweeps the pending
background fetches into `toNotify` as `NotMyVBucket`, clears both
containers, notifies each `toNotify` entry once, then runs
`fireAllOps(engine)`.  Returns the final vBucket, the `toNotify`
notifications, and the `fireAllOps` notifications. -/
def VBucket.notifyAllPendingConnsFailed (vb : VBucket) :
    VBucket × List (Nat × EngineCode) × List (Nat × EngineCode) :=
  let m1 := notifyHpLoop vb.hpChks []
  let m2 := notifyBgLoop vb.pendingBGFetches m1
  let vb1 := { vb with hpChks := [], pendingBGFetches := [] }
  let r := vb1.fireAllOpsForState
  (r.1, m2, r.2)

/-! ## Bloom filter operations (`vbucket.cc` lines 598–655) -/

/-- `VBucket::maybeKeyExistsInFilter` (vbucket.cc:598). -/
def VBucket.maybeKeyExistsInFilter (vb : VBucket) (key : Nat) : Bool :=
  match vb.bFilter with
  | some f => f.maybeKeyExists key
  | none => true

/-- `VBucket::isTempFilterAvailable` (vbucket.cc:608). -/
def VBucket.isTempFilterAvailable (vb : VBucket) : Bool :=
  match vb.tempFilter with
  | some t =>
    t.status = BFilterStatus.compacting ∨ t.status = BFilterStatus.enabled
  | none => false

/-- `VBucket::swapFilter` (vbucket.cc:628): first, if both filters
exist, delete the main one; then, if the temp filter exists with status
compacting or enabled, promote it to main with status enabled; else if
the temp filter exists, delete it. -/
def VBucket.swapFilter (vb : VBucket) : VBucket :=
  let vb1 :=
    if vb.bFilter.isSome ∧ vb.tempFilter.isSome then { vb with bFilter := none }
    else vb
  match vb1.tempFilter with
  | some t =>
    if t.status = BFilterStatus.compacting ∨ t.status = BFilterStatus.enabled then
      { vb1 with bFilter := some (t.setStatus BFilterStatus.enabled),
                 tempFilter := none }
    else { vb1 with tempFilter := none }
  | none => vb1

/-! ## Cookie projections used in statements -/

/-- The cookies registered in the high-priority waiter list. -/
def hpCookies (vb : VBucket) : List Nat :=
  vb.hpChks.map HighPriorityVBEntry.cookie

/-- The cookies registered in the pending background-fetch map. -/
def bgCookies (vb : VBucket) : List Nat :=
  (vb.pendingBGFetches.map fun p => p.2.map VBucketBGFetchItem.cookie).flatten

/-! ## Concrete values used by witnesses and counterexamples -/

/-- A baseline vBucket: active, one pending op (cookie 42), no waiters,
no filters. -/
def vbEx : VBucket :=
  { state := VBState.active
    checkpointManager := ⟨0⟩
    pendingOps := [42]
    pendingOpsStart := 1
    hpChks := []
    pendingBGFetches := []
    bFilter := none
    tempFilter := none }

/-- An enabled bloom filter whose probe answers `false`. -/
def fEx : BloomFilter := ⟨BFilterStatus.enabled, fun _ => false⟩

/-- A compacting temp filter. -/
def gEx : BloomFilter := ⟨BFilterStatus.compacting, fun _ => false⟩

/-- A disabled temp filter. -/
def hEx : BloomFilter := ⟨BFilterStatus.disabled, fun _ => false⟩

/-- Two waiters sharing cookie 7: one satisfied (`id = 1`), one timed
out (`id = 100`, registered at time 0). -/
def vbC2 : VBucket :=
  { vbEx with hpChks := [⟨7, 1, true, 2000000000⟩, ⟨7, 100, true, 0⟩] }

/-- Three waiters with distinct cookies: one satisfiable by-seqno
waiter, one future by-seqno waiter, one by-checkpoint-id waiter. -/
def vbW2 : VBucket :=
  { vbEx with hpChks := [⟨1, 5, true, 0⟩, ⟨2, 99, true, 0⟩, ⟨3, 5, false, 0⟩] }

/-- A dead vBucket with one waiter and one pending op. -/
def vbW3 : VBucket :=
  { vbEx with state := VBState.dead, hpChks := [⟨1, 5, true, 0⟩] }

/-- Cookie 5 registered both as a high-priority waiter and as a
background-fetch waiter. -/
def vbC9 : VBucket :=
  { vbEx with hpChks := [⟨5, 1, true, 0⟩],
              pendingBGFetches := [(0, [⟨5, false⟩])] }

/-- Disjoint waiter and background-fetch cookies. -/
def vbW9 : VBucket :=
  { vbEx with state := VBState.dead,
              hpChks := [⟨1, 5, true, 0⟩],
              pendingBGFetches := [(0, [⟨2, false⟩]), (3, [⟨4, true⟩])] }

/-- Main filter present, temp filter compacting. -/
def vbT1 : VBucket := { vbEx with bFilter := some fEx, tempFilter := some gEx }

/-- Main filter present, temp filter disabled. -/
def vbT2 : VBucket := { vbEx with bFilter := some fEx, tempFilter := some hEx }

/-! # Theorems -/

/-! ## Association-list map lemmas -/

theorem mem_mapInsert_self (k : Nat) (v : EngineCode) (m : List (Nat × EngineCode)) :
    (k, v) ∈ mapInsert k v m := by
  induction m with
  | nil => simp [mapInsert]
  | cons p rest ih =>
    obtain ⟨a, b⟩ := p
    by_cases h : a = k <;> simp [mapInsert, h, ih]

theorem mem_mapInsert_of_ne {k k' : Nat} {v v' : EngineCode}
    {m : List (Nat × EngineCode)} (h : k ≠ k') :
    ((k, v) ∈ mapInsert k' v' m) ↔ (k, v) ∈ m := by
  induction m with
  | nil => simp [mapInsert, h]
  | cons p rest ih =>
    obtain ⟨a, b⟩ := p
    by_cases ha : a = k' <;> simp [mapInsert, ha, ih, h]

theorem mem_mapInsert_same (k k' : Nat) (v : EngineCode)
    (m : List (Nat × EngineCode)) (h : (k, v) ∈ m) : (k, v) ∈ mapInsert k' v m := by
  by_cases hk : k = k'
  · subst hk; exact mem_mapInsert_self k v m
  · exact (mem_mapInsert_of_ne hk).mpr h

theorem mapInsert_cons_eq (k : Nat) (v : EngineCode) (b : Nat) (c : EngineCode)
    (rest : List (Nat × EngineCode)) (h : b = k) :
    mapInsert k v ((b, c) :: rest) = (k, v) :: rest := by
  simp [mapInsert, h]

theorem mapInsert_cons_ne (k : Nat) (v : EngineCode) (b : Nat) (c : EngineCode)
    (rest : List (Nat × EngineCode)) (h : b ≠ k) :
    mapInsert k v ((b, c) :: rest) = (b, c) :: mapInsert k v rest := by
  simp [mapInsert, h]

theorem mem_mapKeys_mapInsert (a k : Nat) (v : EngineCode)
    (m : List (Nat × EngineCode)) :
    a ∈ mapKeys (mapInsert k v m) ↔ a = k ∨ a ∈ mapKeys m := by
  induction m with
  | nil => simp [mapInsert, mapKeys]
  | cons p rest ih =>
    obtain ⟨b, c⟩ := p
    simp only [mapKeys] at ih ⊢
    by_cases hb : b = k
    · rw [mapInsert_cons_eq k v b c rest hb]
      subst hb
      simp only [List.map_cons, List.mem_cons]
      tauto
    · rw [mapInsert_cons_ne k v b c rest hb]
      simp only [List.map_cons, List.mem_cons, ih]
      tauto

theorem nodup_mapKeys_mapInsert (k : Nat) (v : EngineCode)
    (m : List (Nat × EngineCode)) (h : (mapKeys m).Nodup) :
    (mapKeys (mapInsert k v m)).Nodup := by
  induction m with
  | nil => simp [mapInsert, mapKeys]
  | cons p rest ih =>
    obtain ⟨b, c⟩ := p
    simp only [mapKeys, List.map_cons, List.nodup_cons] at h
    by_cases hb : b = k
    · rw [mapInsert_cons_eq k v b c rest hb]
      subst hb
      simp only [mapKeys, List.map_cons, List.nodup_cons]
      exact h
    · rw [mapInsert_cons_ne k v b c rest hb]
      simp only [mapKeys, List.map_cons, List.nodup_cons]
      refine ⟨?_, ih h.2⟩
      intro hmem
      rcases (mem_mapKeys_mapInsert b k v rest).mp hmem with h1 | h2
      · exact hb h1
      · exact h.1 h2

theorem mem_mapKeys_of_mem {k : Nat} {v : EngineCode}
    {m : List (Nat × EngineCode)} (h : (k, v) ∈ m) : k ∈ mapKeys m :=
  List.mem_map_of_mem Prod.fst h

/-! ## `notifyLoop` step equations -/

section NotifyLoopLemmas

variable (minT maxT now idNum : Nat) (isBySeqno : Bool)

theorem notifyLoop_skip (f : HighPriorityVBEntry) (rest : List HighPriorityVBEntry)
    (timeout : Nat) (acc : List (Nat × EngineCode)) (h : isBySeqno ≠ f.isBySeqno) :
    notifyLoop minT maxT now idNum isBySeqno (f :: rest) timeout acc =
      ⟨f :: (notifyLoop minT maxT now idNum isBySeqno rest timeout acc).hpChks,
       (notifyLoop minT maxT now idNum isBySeqno rest timeout acc).toNotify,
       (notifyLoop minT maxT now idNum isBySeqno rest timeout acc).chkFlushTimeout⟩ := by
  simp only [notifyLoop]
  rw [if_pos h]

theorem notifyLoop_success (f : HighPriorityVBEntry) (rest : List HighPriorityVBEntry)
    (timeout : Nat) (acc : List (Nat × EngineCode))
    (h1 : isBySeqno = f.isBySeqno) (h2 : f.id ≤ idNum) :
    notifyLoop minT maxT now idNum isBySeqno (f :: rest) timeout acc =
      notifyLoop minT maxT now idNum isBySeqno rest
        (adjustCheckpointFlushTimeout minT maxT (hrtimeSub now f.start / 1000000000))
        (mapInsert f.cookie EngineCode.success acc) := by
  simp only [notifyLoop]
  rw [if_neg (by simp [h1]), if_pos h2]

theorem notifyLoop_timedOut (f : HighPriorityVBEntry) (rest : List HighPriorityVBEntry)
    (timeout : Nat) (acc : List (Nat × EngineCode))
    (h1 : isBySeqno = f.isBySeqno) (h2 : ¬ f.id ≤ idNum)
    (h3 : timeout < hrtimeSub now f.start / 1000000000) :
    notifyLoop minT maxT now idNum isBySeqno (f :: rest) timeout acc =
      notifyLoop minT maxT now idNum isBySeqno rest
        (adjustCheckpointFlushTimeout minT maxT (hrtimeSub now f.start / 1000000000))
        (mapInsert f.cookie EngineCode.tmpfail acc) := by
  simp only [notifyLoop]
  rw [if_neg (by simp [h1]), if_neg h2, if_pos h3]

theorem notifyLoop_keep (f : HighPriorityVBEntry) (rest : List HighPriorityVBEntry)
    (timeout : Nat) (acc : List (Nat × EngineCode))
    (h1 : isBySeqno = f.isBySeqno) (h2 : ¬ f.id ≤ idNum)
    (h3 : ¬ timeout < hrtimeSub now f.start / 1000000000) :
    notifyLoop minT maxT now idNum isBySeqno (f :: rest) timeout acc =
      ⟨f :: (notifyLoop minT maxT now idNum isBySeqno rest timeout acc).hpChks,
       (notifyLoop minT maxT now idNum isBySeqno rest timeout acc).toNotify,
       (notifyLoop minT maxT now idNum isBySeqno rest timeout acc).chkFlushTimeout⟩ := by
  simp only [notifyLoop]
  rw [if_neg (by simp [h1]), if_neg h2, if_neg h3]

/-- Every surviving waiter was already in the list. -/
theorem notifyLoop_hpChks_subset :
    ∀ (l : List HighPriorityVBEntry) (timeout : Nat) (acc : List (Nat × EngineCode)),
      ∀ e ∈ (notifyLoop minT maxT now idNum isBySeqno l timeout acc).hpChks, e ∈ l := by
  intro l
  induction l with
  | nil =>
    intro timeout acc e he
    simp [notifyLoop] at he
  | cons f rest ih =>
    intro timeout acc e he
    by_cases h1 : isBySeqno ≠ f.isBySeqno
    · rw [notifyLoop_skip minT maxT now idNum isBySeqno f rest timeout acc h1] at he
      rcases List.mem_cons.mp he with h | h
      · exact h ▸ List.mem_cons_self f rest
      · exact List.mem_cons_of_mem f (ih _ _ _ h)
    · push_neg at h1
      by_cases h2 : f.id ≤ idNum
      · rw [notifyLoop_success minT maxT now idNum isBySeqno f rest timeout acc h1 h2] at he
        exact List.mem_cons_of_mem f (ih _ _ _ he)
      · by_cases h3 : timeout < hrtimeSub now f.start / 1000000000
        · rw [notifyLoop_timedOut minT maxT now idNum isBySeqno f rest timeout acc h1 h2 h3] at he
          exact List.mem_cons_of_mem f (ih _ _ _ he)
        · rw [notifyLoop_keep minT maxT now idNum isBySeqno f rest timeout acc h1 h2 h3] at he
          rcases List.mem_cons.mp he with h | h
          · exact h ▸ List.mem_cons_self f rest
          · exact List.mem_cons_of_mem f (ih _ _ _ h)

/-- A binding whose key is no waiter's cookie survives the walk
untouched. -/
theorem notifyLoop_toNotify_pres :
    ∀ (l : List HighPriorityVBEntry) (timeout : Nat) (acc : List (Nat × EngineCode))
      (k : Nat) (v : EngineCode), (∀ e ∈ l, e.cookie ≠ k) →
      (((k, v) ∈ (notifyLoop minT maxT now idNum isBySeqno l timeout acc).toNotify) ↔
        (k, v) ∈ acc) := by
  intro l
  induction l with
  | nil =>
    intro timeout acc k v _
    simp [notifyLoop]
  | cons f rest ih =>
    intro timeout acc k v hk
    have hfk : k ≠ f.cookie := fun h => hk f (List.mem_cons_self f rest) h.symm
    have hrest : ∀ e ∈ rest, e.cookie ≠ k :=
      fun e he => hk e (List.mem_cons_of_mem f he)
    by_cases h1 : isBySeqno ≠ f.isBySeqno
    · rw [notifyLoop_skip minT maxT now idNum isBySeqno f rest timeout acc h1]
      exact ih _ _ _ _ hrest
    · push_neg at h1
      by_cases h2 : f.id ≤ idNum
      · rw [notifyLoop_success minT maxT now idNum isBySeqno f rest timeout acc h1 h2]
        rw [ih _ _ _ _ hrest]
        exact mem_mapInsert_of_ne hfk
      · by_cases h3 : timeout < hrtimeSub now f.start / 1000000000
        · rw [notifyLoop_timedOut minT maxT now idNum isBySeqno f rest timeout acc h1 h2 h3]
          rw [ih _ _ _ _ hrest]
          exact mem_mapInsert_of_ne hfk
        · rw [notifyLoop_keep minT maxT now idNum isBySeqno f rest timeout acc h1 h2 h3]
          exact ih _ _ _ _ hrest

/-- Every key of the final map is a key of the accumulator or the cookie
of a type-matching waiter. -/
theorem notifyLoop_toNotify_keys :
    ∀ (l : List HighPriorityVBEntry) (timeout : Nat) (acc : List (Nat × EngineCode))
      (k : Nat), k ∈ mapKeys (notifyLoop minT maxT now idNum isBySeqno l timeout acc).toNotify →
      k ∈ mapKeys acc ∨ ∃ e ∈ l, e.cookie = k ∧ e.isBySeqno = isBySeqno := by
  intro l
  induction l with
  | nil =>
    intro timeout acc k hk
    left
    simpa [notifyLoop] using hk
  | cons f rest ih =>
    intro timeout acc k hk
    by_cases h1 : isBySeqno ≠ f.isBySeqno
    · rw [notifyLoop_skip minT maxT now idNum isBySeqno f rest timeout acc h1] at hk
      rcases ih _ _ _ hk with h | ⟨e, he, hek⟩
      · exact Or.inl h
      · exact Or.inr ⟨e, List.mem_cons_of_mem f he, hek⟩
    · push_neg at h1
      by_cases h2 : f.id ≤ idNum
      · rw [notifyLoop_success minT maxT now idNum isBySeqno f rest timeout acc h1 h2] at hk
        rcases ih _ _ _ hk with h | ⟨e, he, hek⟩
        · rcases (mem_mapKeys_mapInsert k f.cookie EngineCode.success acc).mp h with h' | h'
          · exact Or.inr ⟨f, List.mem_cons_self f rest, h'.symm, h1.symm⟩
          · exact Or.inl h'
        · exact Or.inr ⟨e, List.mem_cons_of_mem f he, hek⟩
      · by_cases h3 : timeout < hrtimeSub now f.start / 1000000000
        · rw [notifyLoop_timedOut minT maxT now idNum isBySeqno f rest timeout acc h1 h2 h3] at hk
          rcases ih _ _ _ hk with h | ⟨e, he, hek⟩
          · rcases (mem_mapKeys_mapInsert k f.cookie EngineCode.tmpfail acc).mp h with h' | h'
            · exact Or.inr ⟨f, List.mem_cons_self f rest, h'.symm, h1.symm⟩
            · exact Or.inl h'
          · exact Or.inr ⟨e, List.mem_cons_of_mem f he, hek⟩
        · rw [notifyLoop_keep minT maxT now idNum isBySeqno f rest timeout acc h1 h2 h3] at hk
          rcases ih _ _ _ hk with h | ⟨e, he, hek⟩
          · exact Or.inl h
          · exact Or.inr ⟨e, List.mem_cons_of_mem f he, hek⟩

/-- The final map never holds two bindings for one cookie. -/
theorem notifyLoop_toNotify_nodup :
    ∀ (l : List HighPriorityVBEntry) (timeout : Nat) (acc : List (Nat × EngineCode)),
      (mapKeys acc).Nodup →
      (mapKeys (notifyLoop minT maxT now idNum isBySeqno l timeout acc).toNotify).Nodup := by
  intro l
  induction l with
  | nil =>
    intro timeout acc h
    simpa [notifyLoop] using h
  | cons f rest ih =>
    intro timeout acc h
    by_cases h1 : isBySeqno ≠ f.isBySeqno
    · rw [notifyLoop_skip minT maxT now idNum isBySeqno f rest timeout acc h1]
      exact ih _ _ h
    · push_neg at h1
      by_cases h2 : f.id ≤ idNum
      · rw [notifyLoop_success minT maxT now idNum isBySeqno f rest timeout acc h1 h2]
        exact ih _ _ (nodup_mapKeys_mapInsert _ _ _ h)
      · by_cases h3 : timeout < hrtimeSub now f.start / 1000000000
        · rw [notifyLoop_timedOut minT maxT now idNum isBySeqno f rest timeout acc h1 h2 h3]
          exact ih _ _ (nodup_mapKeys_mapInsert _ _ _ h)
        · rw [notifyLoop_keep minT maxT now idNum isBySeqno f rest timeout acc h1 h2 h3]
          exact ih _ _ h

/-- With pairwise-distinct cookies, a type-matching waiter whose target
is reached ends up bound to `Success` and off the waiter list. -/
theorem notifyLoop_success_served :
    ∀ (l : List HighPriorityVBEntry) (timeout : Nat) (acc : List (Nat × EngineCode)),
      (l.map HighPriorityVBEntry.cookie).Nodup →
      ∀ e ∈ l, e.isBySeqno = isBySeqno → e.id ≤ idNum →
        (e.cookie, EngineCode.success) ∈
            (notifyLoop minT maxT now idNum isBySeqno l timeout acc).toNotify ∧
          e ∉ (notifyLoop minT maxT now idNum isBySeqno l timeout acc).hpChks := by
  intro l
  induction l with
  | nil =>
    intro timeout acc _ e he
    exact absurd he (List.not_mem_nil e)
  | cons f rest ih =>
    intro timeout acc hnd e he hty hid
    have hnd' : (rest.map HighPriorityVBEntry.cookie).Nodup :=
      (List.nodup_cons.mp hnd).2
    have hhead : f.cookie ∉ rest.map HighPriorityVBEntry.cookie :=
      (List.nodup_cons.mp hnd).1
    rcases List.mem_cons.mp he with rfl | he'
    · -- e is the head; its branch is the success branch
      have h1 : isBySeqno = e.isBySeqno := hty.symm
      rw [notifyLoop_success minT maxT now idNum isBySeqno e rest timeout acc h1 hid]
      have hrest : ∀ e' ∈ rest, e'.cookie ≠ e.cookie := by
        intro e' he'' hc
        exact hhead (hc ▸ List.mem_map_of_mem HighPriorityVBEntry.cookie he'')
      constructor
      · rw [notifyLoop_toNotify_pres minT maxT now idNum isBySeqno rest _ _ _ _ hrest]
        exact mem_mapInsert_self _ _ _
      · intro hmem
        have : e ∈ rest := notifyLoop_hpChks_subset minT maxT now idNum isBySeqno rest _ _ e hmem
        exact hhead (List.mem_map_of_mem HighPriorityVBEntry.cookie this)
    · -- e is in the tail
      have hne : e ≠ f := by
        intro hef
        exact hhead (hef ▸ List.mem_map_of_mem HighPriorityVBEntry.cookie he')
      by_cases h1 : isBySeqno ≠ f.isBySeqno
      · rw [notifyLoop_skip minT maxT now idNum isBySeqno f rest timeout acc h1]
        obtain ⟨hmem, hnot⟩ := ih _ _ hnd' e he' hty hid
        exact ⟨hmem, by
          intro hcon
          rcases List.mem_cons.mp hcon with h | h
          · exact hne h
          · exact hnot h⟩
      · push_neg at h1
        by_cases h2 : f.id ≤ idNum
        · rw [notifyLoop_success minT maxT now idNum isBySeqno f rest timeout acc h1 h2]
          exact ih _ _ hnd' e he' hty hid
        · by_cases h3 : timeout < hrtimeSub now f.start / 1000000000
          · rw [notifyLoop_timedOut minT maxT now idNum isBySeqno f rest timeout acc h1 h2 h3]
            exact ih _ _ hnd' e he' hty hid
          · rw [notifyLoop_keep minT maxT now idNum isBySeqno f rest timeout acc h1 h2 h3]
            obtain ⟨hmem, hnot⟩ := ih _ _ hnd' e he' hty hid
            exact ⟨hmem, by
              intro hcon
              rcases List.mem_cons.mp hcon with h | h
              · exact hne h
              · exact hnot h⟩

/-- A waiter of the other wait type stays on the list. -/
theorem notifyLoop_other_type_kept :
    ∀ (l : List HighPriorityVBEntry) (timeout : Nat) (acc : List (Nat × EngineCode)),
      ∀ e ∈ l, e.isBySeqno ≠ isBySeqno →
        e ∈ (notifyLoop minT maxT now idNum isBySeqno l timeout acc).hpChks := by
  intro l
  induction l with
  | nil =>
    intro timeout acc e he
    exact absurd he (List.not_mem_nil e)
  | cons f rest ih =>
    intro timeout acc e he hty
    rcases List.mem_cons.mp he with rfl | he'
    · rw [notifyLoop_skip minT maxT now idNum isBySeqno e rest timeout acc (fun h => hty h.symm)]
      exact List.mem_cons_self _ _
    · by_cases h1 : isBySeqno ≠ f.isBySeqno
      · rw [notifyLoop_skip minT maxT now idNum isBySeqno f rest timeout acc h1]
        exact List.mem_cons_of_mem f (ih _ _ e he' hty)
      · push_neg at h1
        by_cases h2 : f.id ≤ idNum
        · rw [notifyLoop_success minT maxT now idNum isBySeqno f rest timeout acc h1 h2]
          exact ih _ _ e he' hty
        · by_cases h3 : timeout < hrtimeSub now f.start / 1000000000
          · rw [notifyLoop_timedOut minT maxT now idNum isBySeqno f rest timeout acc h1 h2 h3]
            exact ih _ _ e he' hty
          · rw [notifyLoop_keep minT maxT now idNum isBySeqno f rest timeout acc h1 h2 h3]
            exact List.mem_cons_of_mem f (ih _ _ e he' hty)

end NotifyLoopLemmas

/-! ## Sweep lemmas for `notifyAllPendingConnsFailed` -/

theorem notifyHpLoop_pres (l : List HighPriorityVBEntry)
    (acc : List (Nat × EngineCode)) (k : Nat)
    (h : (k, EngineCode.tmpfail) ∈ acc) :
    (k, EngineCode.tmpfail) ∈ notifyHpLoop l acc := by
  induction l generalizing acc with
  | nil => exact h
  | cons f rest ih =>
    simp only [notifyHpLoop]
    exact ih _ (mem_mapInsert_same _ _ _ _ h)

theorem notifyHpLoop_mem (l : List HighPriorityVBEntry)
    (acc : List (Nat × EngineCode)) :
    ∀ e ∈ l, (e.cookie, EngineCode.tmpfail) ∈ notifyHpLoop l acc := by
  induction l generalizing acc with
  | nil =>
    intro e he
    exact absurd he (List.not_mem_nil e)
  | cons f rest ih =>
    intro e he
    simp only [notifyHpLoop]
    rcases List.mem_cons.mp he with rfl | he'
    · exact notifyHpLoop_pres _ _ _ (mem_mapInsert_self _ _ _)
    · exact ih _ e he'

theorem notifyHpLoop_nodup (l : List HighPriorityVBEntry)
    (acc : List (Nat × EngineCode)) (h : (mapKeys acc).Nodup) :
    (mapKeys (notifyHpLoop l acc)).Nodup := by
  induction l generalizing acc with
  | nil => exact h
  | cons f rest ih =>
    simp only [notifyHpLoop]
    exact ih _ (nodup_mapKeys_mapInsert _ _ _ h)

theorem bgFold_pres_same (ctx : List VBucketBGFetchItem)
    (acc : List (Nat × EngineCode)) (k : Nat)
    (h : (k, EngineCode.notMyVBucket) ∈ acc) :
    (k, EngineCode.notMyVBucket) ∈
      ctx.foldl (fun m item => mapInsert item.cookie EngineCode.notMyVBucket m) acc := by
  induction ctx generalizing acc with
  | nil => exact h
  | cons item rest ih =>
    simp only [List.foldl_cons]
    exact ih _ (mem_mapInsert_same _ _ _ _ h)

theorem bgFold_pres_ne (ctx : List VBucketBGFetchItem)
    (acc : List (Nat × EngineCode)) (k : Nat) (v : EngineCode)
    (h : (k, v) ∈ acc) (hk : ∀ item ∈ ctx, item.cookie ≠ k) :
    (k, v) ∈
      ctx.foldl (fun m item => mapInsert item.cookie EngineCode.notMyVBucket m) acc := by
  induction ctx generalizing acc with
  | nil => exact h
  | cons item rest ih =>
    simp only [List.foldl_cons]
    refine ih _ ?_ fun i hi => hk i (List.mem_cons_of_mem item hi)
    exact (mem_mapInsert_of_ne
      fun hke => (hk item (List.mem_cons_self item rest)) hke.symm).mpr h

theorem bgFold_mem (ctx : List VBucketBGFetchItem)
    (acc : List (Nat × EngineCode)) (item : VBucketBGFetchItem) (h : item ∈ ctx) :
    (item.cookie, EngineCode.notMyVBucket) ∈
      ctx.foldl (fun m i => mapInsert i.cookie EngineCode.notMyVBucket m) acc := by
  induction ctx generalizing acc with
  | nil => exact absurd h (List.not_mem_nil item)
  | cons i0 rest ih =>
    simp only [List.foldl_cons]
    rcases List.mem_cons.mp h with rfl | h'
    · exact bgFold_pres_same _ _ _ (mem_mapInsert_self _ _ _)
    · exact ih _ h'

theorem bgFold_nodup (ctx : List VBucketBGFetchItem)
    (acc : List (Nat × EngineCode)) (h : (mapKeys acc).Nodup) :
    (mapKeys (ctx.foldl
        (fun m item => mapInsert item.cookie EngineCode.notMyVBucket m) acc)).Nodup := by
  induction ctx generalizing acc with
  | nil => exact h
  | cons item rest ih =>
    simp only [List.foldl_cons]
    exact ih _ (nodup_mapKeys_mapInsert _ _ _ h)

theorem notifyBgLoop_pres_same (bg : List (Nat × List VBucketBGFetchItem))
    (acc : List (Nat × EngineCode)) (k : Nat)
    (h : (k, EngineCode.notMyVBucket) ∈ acc) :
    (k, EngineCode.notMyVBucket) ∈ notifyBgLoop bg acc := by
  induction bg generalizing acc with
  | nil => exact h
  | cons p rest ih =>
    obtain ⟨key, ctx⟩ := p
    simp only [notifyBgLoop]
    exact ih _ (bgFold_pres_same _ _ _ h)

theorem notifyBgLoop_pres_ne (bg : List (Nat × List VBucketBGFetchItem))
    (acc : List (Nat × EngineCode)) (k : Nat) (v : EngineCode)
    (h : (k, v) ∈ acc) (hk : ∀ p ∈ bg, ∀ item ∈ p.2, item.cookie ≠ k) :
    (k, v) ∈ notifyBgLoop bg acc := by
  induction bg generalizing acc with
  | nil => exact h
  | cons p rest ih =>
    obtain ⟨key, ctx⟩ := p
    simp only [notifyBgLoop]
    refine ih _ ?_ fun q hq item hi => hk q (List.mem_cons_of_mem _ hq) item hi
    exact bgFold_pres_ne _ _ _ _ h
      fun item hi => hk (key, ctx) (List.mem_cons_self _ _) item hi

theorem notifyBgLoop_mem (bg : List (Nat × List VBucketBGFetchItem))
    (acc : List (Nat × EngineCode)) (p : Nat × List VBucketBGFetchItem)
    (item : VBucketBGFetchItem) (hp : p ∈ bg) (hi : item ∈ p.2) :
    (item.cookie, EngineCode.notMyVBucket) ∈ notifyBgLoop bg acc := by
  induction bg generalizing acc with
  | nil => exact absurd hp (List.not_mem_nil p)
  | cons q rest ih =>
    obtain ⟨key, ctx⟩ := q
    simp only [notifyBgLoop]
    rcases List.mem_cons.mp hp with rfl | hp'
    · exact notifyBgLoop_pres_same _ _ _ (bgFold_mem _ _ _ hi)
    · exact ih _ hp'

theorem notifyBgLoop_nodup (bg : List (Nat × List VBucketBGFetchItem))
    (acc : List (Nat × EngineCode)) (h : (mapKeys acc).Nodup) :
    (mapKeys (notifyBgLoop bg acc)).Nodup := by
  induction bg generalizing acc with
  | nil => exact h
  | cons p rest ih =>
    obtain ⟨key, ctx⟩ := p
    simp only [notifyBgLoop]
    exact ih _ (bgFold_nodup _ _ h)

theorem fireAllOpsForState_untouched (vb : VBucket) :
    (vb.fireAllOpsForState).1.hpChks = vb.hpChks ∧
    (vb.fireAllOpsForState).1.pendingBGFetches = vb.pendingBGFetches := by
  unfold VBucket.fireAllOpsForState VBucket.fireAllOps
  split_ifs <;> exact ⟨rfl, rfl⟩

/-- An element of `bgCookies` comes from some queued fetch item. -/
theorem bgCookies_elim (vb : VBucket) (c : Nat) (h : c ∈ bgCookies vb) :
    ∃ p ∈ vb.pendingBGFetches, ∃ item ∈ p.2, item.cookie = c := by
  unfold bgCookies at h
  rcases List.mem_flatten.mp h with ⟨s, hs, hc⟩
  rcases List.mem_map.mp hs with ⟨p, hp, rfl⟩
  rcases List.mem_map.mp hc with ⟨item, hi, hic⟩
  exact ⟨p, hp, item, hi, hic⟩

/-- A queued fetch item's cookie is in `bgCookies`. -/
theorem bgCookies_intro (vb : VBucket) (p : Nat × List VBucketBGFetchItem)
    (item : VBucketBGFetchItem) (hp : p ∈ vb.pendingBGFetches) (hi : item ∈ p.2) :
    item.cookie ∈ bgCookies vb := by
  unfold bgCookies
  refine List.mem_flatten.mpr ⟨p.2.map VBucketBGFetchItem.cookie, ?_, ?_⟩
  · exact List.mem_map.mpr ⟨p, hp, rfl⟩
  · exact List.mem_map_of_mem _ hi

/-- `countP (· = c)` of a duplicate-free list containing `c` is 1. -/
theorem countP_eq_one_of_nodup (l : List Nat) (c : Nat) (h : l.Nodup)
    (hm : c ∈ l) : l.countP (fun x => x = c) = 1 := by
  induction l with
  | nil => exact absurd hm (List.not_mem_nil c)
  | cons a rest ih =>
    obtain ⟨hna, hnd⟩ := List.nodup_cons.mp h
    rcases List.mem_cons.mp hm with heq | hm'
    · have h0 : rest.countP (fun x => x = c) = 0 :=
        List.countP_eq_zero.mpr fun b hb => by
          simp only [decide_eq_true_eq]
          intro hbc
          exact hna ((hbc.trans heq) ▸ hb)
      rw [List.countP_cons, h0]
      simp [heq.symm]
    · have hac : a ≠ c := fun hac' => hna (hac' ▸ hm')
      rw [List.countP_cons, ih hnd hm']
      simp [hac]

/-- `notifyAllPendingConnsFailed` unfolded (the `let`s are definitional). -/
theorem notifyAllPendingConnsFailed_eq (vb : VBucket) :
    vb.notifyAllPendingConnsFailed =
      (({ vb with hpChks := [], pendingBGFetches := [] } : VBucket).fireAllOpsForState.1,
       notifyBgLoop vb.pendingBGFetches (notifyHpLoop vb.hpChks []),
       ({ vb with hpChks := [], pendingBGFetches := [] } : VBucket).fireAllOpsForState.2) :=
  rfl

/-- On a vBucket that is neither Active nor Pending with
`pendingOpsStart > 0`, `fireAllOps` notifies the pending ops (in pop
order) with `NotMyVBucket`. -/
theorem fireAllOpsForState_ops (vb : VBucket) (h1 : vb.state ≠ VBState.active)
    (h2 : vb.state ≠ VBState.pending) (h3 : 0 < vb.pendingOpsStart) :
    (vb.fireAllOpsForState).2 =
      vb.pendingOps.reverse.map fun c => (c, EngineCode.notMyVBucket) := by
  unfold VBucket.fireAllOpsForState VBucket.fireAllOps
  rw [if_neg h1, if_neg h2, if_pos h3]

/-- The disjointness hypothesis turned item-wise. -/
theorem bg_cookie_ne_of_not_mem (vb : VBucket) (c : Nat) (h : c ∉ bgCookies vb) :
    ∀ p ∈ vb.pendingBGFetches, ∀ item ∈ p.2, item.cookie ≠ c := by
  intro p hp item hi hic
  exact h (hic ▸ bgCookies_intro vb p item hp hi)

/-- C1 (counterexample): the adaptive timeout CAN decrease.  With bounds
`MIN = 10`, `MAX = 30`, a call observing `wall_time = 25` sets the
timeout to 30; the immediately following call observing `wall_time = 0`
sets it to 10 — strictly below its previous value 30, refuting "the
value after the call is greater than or equal to its value before". -/
theorem c1_adjust_can_decrease :
    adjustCheckpointFlushTimeout 10 30 25 = 30 ∧
    adjustCheckpointFlushTimeout 10 30 0 = 10 ∧
    ¬ adjustCheckpointFlushTimeout 10 30 25 ≤
        adjustCheckpointFlushTimeout 10 30 0 := by
  decide

/-- C1 (amended): `adjustCheckpointFlushTimeout` sets the process-wide
timeout purely as a function of the observed `wall_time`, into one of
three bands — `MIN` when `wall_time ≤ MIN`, the middle of `[MIN, MAX]`
when `wall_time ≤ middle`, `MAX` otherwise — independent of the current
value (so it can decrease it).  Under `MIN ≤ MAX` the written value is
monotone in `wall_time` and always lies within `[MIN, MAX]`. -/
theorem c1_adjust_bands (minT maxT : Nat) (h : minT ≤ maxT)
    (w w' : Nat) (hw : w ≤ w') :
    adjustCheckpointFlushTimeout minT maxT w ≤
      adjustCheckpointFlushTimeout minT maxT w' ∧
    minT ≤ adjustCheckpointFlushTimeout minT maxT w ∧
    adjustCheckpointFlushTimeout minT maxT w ≤ maxT := by
  unfold adjustCheckpointFlushTimeout
  split_ifs <;> omega

/-- C1 witness: the amended theorem at `MIN = 10`, `MAX = 30`,
`wall_time` 3 then 25. -/
theorem c1_adjust_bands_witness :
    adjustCheckpointFlushTimeout 10 30 3 ≤ adjustCheckpointFlushTimeout 10 30 25 ∧
    10 ≤ adjustCheckpointFlushTimeout 10 30 3 ∧
    adjustCheckpointFlushTimeout 10 30 3 ≤ 30 :=
  c1_adjust_bands 10 30 (by decide) 3 25 (by decide)

/-- C4: `setState` with target Active leaves the open checkpoint id at
2 or more; any other target leaves it unchanged (vbucket.cc:269–272). -/
theorem c4_setState_openCheckpointId (vb : VBucket) (toState : VBState) :
    (toState = VBState.active →
      2 ≤ ((vb.setState toState).1).checkpointManager.openCheckpointId) ∧
    (toState ≠ VBState.active →
      ((vb.setState toState).1).checkpointManager.openCheckpointId =
        vb.checkpointManager.openCheckpointId) := by
  have heq : ((vb.setState toState).1).checkpointManager.openCheckpointId =
      if toState = VBState.active ∧ vb.checkpointManager.openCheckpointId < 2
      then 2 else vb.checkpointManager.openCheckpointId := by
    unfold VBucket.setState CheckpointManager.setOpenCheckpointId
    split_ifs <;> rfl
  rw [heq]
  constructor
  · intro h
    subst h
    split_ifs with hc
    · omega
    · have : ¬ vb.checkpointManager.openCheckpointId < 2 := fun hlt => hc ⟨rfl, hlt⟩
      omega
  · intro h
    rw [if_neg fun hc => h hc.1]

/-- C4 witness: at the concrete vBucket `vbEx` (open checkpoint id 0),
for target Active and target Replica. -/
theorem c4_setState_openCheckpointId_witness :
    2 ≤ ((vbEx.setState VBState.active).1).checkpointManager.openCheckpointId ∧
    ((vbEx.setState VBState.replica).1).checkpointManager.openCheckpointId =
      vbEx.checkpointManager.openCheckpointId :=
  ⟨(c4_setState_openCheckpointId vbEx VBState.active).1 rfl,
   (c4_setState_openCheckpointId vbEx VBState.replica).2 (by decide)⟩

/-- C5: the three dirty-queue decrements are saturating subtractions —
the stored value is `v - d` over the integers clamped at zero, and in
particular never exceeds the old value (no unsigned wraparound). -/
theorem c5_decr_saturating (v d : Nat) :
    ((decrDirtyQueueMem v d : Int) = max ((v : Int) - (d : Int)) 0 ∧
      decrDirtyQueueMem v d ≤ v) ∧
    ((decrDirtyQueueAge v d : Int) = max ((v : Int) - (d : Int)) 0 ∧
      decrDirtyQueueAge v d ≤ v) ∧
    ((decrDirtyQueuePendingWrites v d : Int) = max ((v : Int) - (d : Int)) 0 ∧
      decrDirtyQueuePendingWrites v d ≤ v) := by
  unfold decrDirtyQueueMem decrDirtyQueueAge decrDirtyQueuePendingWrites
  refine ⟨⟨?_, ?_⟩, ⟨?_, ?_⟩, ⟨?_, ?_⟩⟩ <;> split_ifs <;> push_cast <;> omega

/-- C10: `maybeKeyExistsInFilter` answers `true` whenever no main bloom
filter exists, and delegates to the filter's probe when one does
(vbucket.cc:598–606). -/
theorem c10_maybeKeyExistsInFilter (vb : VBucket) (key : Nat) :
    (vb.bFilter = none → vb.maybeKeyExistsInFilter key = true) ∧
    (∀ f, vb.bFilter = some f →
      vb.maybeKeyExistsInFilter key = f.maybeKeyExists key) := by
  unfold VBucket.maybeKeyExistsInFilter
  constructor
  · intro h; rw [h]
  · intro f h; rw [h]

/-- C10 witness: at `vbEx` (no filter) and at `vbEx` carrying `fEx`. -/
theorem c10_maybeKeyExistsInFilter_witness :
    vbEx.maybeKeyExistsInFilter 5 = true ∧
    ({ vbEx with bFilter := some fEx } : VBucket).maybeKeyExistsInFilter 5 =
      fEx.maybeKeyExists 5 :=
  ⟨(c10_maybeKeyExistsInFilter vbEx 5).1 rfl,
   (c10_maybeKeyExistsInFilter { vbEx with bFilter := some fEx } 5).2 fEx rfl⟩

/-- C8: `swapFilter` with a temp filter present: if its status is
Compacting or Enabled, the temp filter becomes the main filter with
status Enabled and the temp slot is emptied; with any other status both
filters are discarded and the vBucket is left with no filter
(vbucket.cc:628–655). -/
theorem c8_swapFilter (vb : VBucket) (t : BloomFilter)
    (h : vb.tempFilter = some t) :
    ((t.status = BFilterStatus.compacting ∨ t.status = BFilterStatus.enabled) →
      vb.swapFilter.bFilter = some (t.setStatus BFilterStatus.enabled) ∧
      vb.swapFilter.tempFilter = none) ∧
    (t.status ≠ BFilterStatus.compacting → t.status ≠ BFilterStatus.enabled →
      vb.swapFilter.bFilter = none ∧ vb.swapFilter.tempFilter = none) := by
  constructor
  · intro hs
    unfold VBucket.swapFilter
    cases hb : vb.bFilter
    · simp [h, hb, hs]
    · simp [h, hb, hs]
  · intro h1 h2
    have hs : ¬ (t.status = BFilterStatus.compacting ∨
        t.status = BFilterStatus.enabled) := by tauto
    unfold VBucket.swapFilter
    cases hb : vb.bFilter
    · simp [h, hb, hs]
    · simp [h, hb, hs]

/-- C8 witness: promoting a compacting temp filter (`vbT1`) and
discarding a disabled one (`vbT2`). -/
theorem c8_swapFilter_witness :
    (vbT1.swapFilter.bFilter = some (gEx.setStatus BFilterStatus.enabled) ∧
      vbT1.swapFilter.tempFilter = none) ∧
    (vbT2.swapFilter.bFilter = none ∧ vbT2.swapFilter.tempFilter = none) :=
  ⟨(c8_swapFilter vbT1 gEx rfl).1 (Or.inl rfl),
   (c8_swapFilter vbT2 hEx rfl).2 (by decide) (by decide)⟩

/-- C2 (counterexample): with two waiters sharing cookie 7 — one with
target 1 (reached) and one with target 100 that has timed out — the
first waiter's `Success` binding in `toNotify` is overwritten by the
second waiter's `TempFail` before `notifyIOComplete` runs, so a
by-seqno waiter with `targetId ≤ S` is never notified with `Success`. -/
theorem c2_success_can_be_swallowed :
    (⟨7, 1, true, 2000000000⟩ : HighPriorityVBEntry) ∈ vbC2.hpChks ∧
    (vbC2.notifyOnPersistence 0 0 0 2000000000 50 true).2.1 =
      [(7, EngineCode.tmpfail)] ∧
    ¬ (7, EngineCode.success) ∈ (vbC2.notifyOnPersistence 0 0 0 2000000000 50 true).2.1 := by
  decide

/-- C2 (amended): after `notifyOnPersistence(S, BySeqno)`, provided no
two registered waiters share a cookie, every high-priority waiter with
`waitType = BySeqno` and `targetId ≤ S` is bound to `Success` in the
notification map (whose keys are duplicate-free, so each cookie is
notified exactly once) and is removed from the waiter list, while
waiters with `waitType = ByCheckpointId` stay on the list and their
cookies are never notified. -/
theorem c2_notifyOnPersistence (vb : VBucket) (minT maxT timeout now idNum : Nat)
    (hnd : (vb.hpChks.map HighPriorityVBEntry.cookie).Nodup) :
    (∀ e ∈ vb.hpChks, e.isBySeqno = true → e.id ≤ idNum →
      (e.cookie, EngineCode.success) ∈
          (vb.notifyOnPersistence minT maxT timeout now idNum true).2.1 ∧
        e ∉ (vb.notifyOnPersistence minT maxT timeout now idNum true).1.hpChks) ∧
    (mapKeys (vb.notifyOnPersistence minT maxT timeout now idNum true).2.1).Nodup ∧
    (∀ e ∈ vb.hpChks, e.isBySeqno = false →
      e ∈ (vb.notifyOnPersistence minT maxT timeout now idNum true).1.hpChks ∧
        e.cookie ∉ mapKeys (vb.notifyOnPersistence minT maxT timeout now idNum true).2.1) := by
  unfold VBucket.notifyOnPersistence
  refine ⟨?_, ?_, ?_⟩
  · intro e he hty hid
    exact notifyLoop_success_served minT maxT now idNum true vb.hpChks timeout [] hnd e he hty hid
  · exact notifyLoop_toNotify_nodup minT maxT now idNum true vb.hpChks timeout [] (by simp [mapKeys])
  · intro e he hty
    constructor
    · exact notifyLoop_other_type_kept minT maxT now idNum true vb.hpChks timeout [] e he
        (by simp [hty])
    · intro hmem
      rcases notifyLoop_toNotify_keys minT maxT now idNum true vb.hpChks timeout [] e.cookie hmem
        with h | ⟨e', he', hck, hty'⟩
      · simp [mapKeys] at h
      · have : e' = e :=
          List.inj_on_of_nodup_map hnd he' he hck
        rw [this] at hty'
        rw [hty] at hty'
        exact Bool.false_ne_true hty'

/-- C2 witness: the amended theorem at `vbW2` (three waiters with
distinct cookies 1, 2, 3), `S = 50`. -/
theorem c2_notifyOnPersistence_witness :
    ((1, EngineCode.success) ∈ (vbW2.notifyOnPersistence 10 30 10 0 50 true).2.1 ∧
      (⟨1, 5, true, 0⟩ : HighPriorityVBEntry) ∉
        (vbW2.notifyOnPersistence 10 30 10 0 50 true).1.hpChks) ∧
    (mapKeys (vbW2.notifyOnPersistence 10 30 10 0 50 true).2.1).Nodup ∧
    ((⟨3, 5, false, 0⟩ : HighPriorityVBEntry) ∈
        (vbW2.notifyOnPersistence 10 30 10 0 50 true).1.hpChks ∧
      (3 : Nat) ∉ mapKeys (vbW2.notifyOnPersistence 10 30 10 0 50 true).2.1) := by
  have h := c2_notifyOnPersistence vbW2 10 30 10 0 50 (by decide)
  exact ⟨h.1 ⟨1, 5, true, 0⟩ (by decide) rfl (by decide), h.2.1,
         h.2.2 ⟨3, 5, false, 0⟩ (by decide) rfl⟩

/-- C3 (counterexample): `setState` away from Active performs no
notification at all — at the active vBucket `vbEx` holding pending op
cookie 42, `setState(Dead)` makes no `notifyIOComplete` call and leaves
the pending-op list untouched, so the pending op is NOT notified with
`NotMyVBucket` by the call. -/
theorem c3_setState_notifies_nobody :
    vbEx.state = VBState.active ∧
    vbEx.pendingOps = [42] ∧
    (vbEx.setState VBState.dead).2 = [] ∧
    (vbEx.setState VBState.dead).1.pendingOps = [42] ∧
    ¬ (42, EngineCode.notMyVBucket) ∈ (vbEx.setState VBState.dead).2 := by
  decide

/-- C3 (amended): `setState` itself issues no notifications and leaves
pending ops and waiters untouched; the cancellations happen in the
separate `notifyAllPendingConnsFailed`, which — when the vBucket's
state is neither Active nor Pending, `pendingOpsStart` is nonzero and
the pending-op cookies are distinct — notifies every high-priority
waiter cookie not doubling as a background-fetch waiter with
`TempFail`, and every previously-registered pending op exactly once
with `NotMyVBucket`. -/
theorem c3_notifications_happen_in_sweep :
    (∀ (vb : VBucket) (toState : VBState),
      (vb.setState toState).2 = [] ∧
      (vb.setState toState).1.pendingOps = vb.pendingOps ∧
      (vb.setState toState).1.hpChks = vb.hpChks) ∧
    (∀ vb : VBucket, vb.state ≠ VBState.active → vb.state ≠ VBState.pending →
      0 < vb.pendingOpsStart → vb.pendingOps.Nodup →
      (∀ c ∈ hpCookies vb, c ∉ bgCookies vb →
        (c, EngineCode.tmpfail) ∈ (vb.notifyAllPendingConnsFailed).2.1) ∧
      (∀ c ∈ vb.pendingOps,
        (c, EngineCode.notMyVBucket) ∈ (vb.notifyAllPendingConnsFailed).2.2 ∧
        ((vb.notifyAllPendingConnsFailed).2.2).countP (fun p => p.1 = c) = 1)) := by
  constructor
  · intro vb toState
    exact ⟨rfl, rfl, rfl⟩
  · intro vb h1 h2 h3 hnd
    have hops : (vb.notifyAllPendingConnsFailed).2.2 =
        vb.pendingOps.reverse.map fun c => (c, EngineCode.notMyVBucket) := by
      rw [notifyAllPendingConnsFailed_eq]
      exact fireAllOpsForState_ops _ h1 h2 h3
    constructor
    · intro c hc hnotbg
      rw [notifyAllPendingConnsFailed_eq]
      rcases List.mem_map.mp hc with ⟨e, he, rfl⟩
      exact notifyBgLoop_pres_ne _ _ _ _ (notifyHpLoop_mem _ _ e he)
        (bg_cookie_ne_of_not_mem vb e.cookie hnotbg)
    · intro c hc
      rw [hops]
      constructor
      · exact List.mem_map_of_mem _ (List.mem_reverse.mpr hc)
      · rw [List.countP_map]
        have hrev : (vb.pendingOps.reverse).countP (fun x => x = c) =
            (vb.pendingOps).countP (fun x => x = c) := by
          simp
        have : ((fun p : Nat × EngineCode => decide (p.1 = c)) ∘
            fun c' => (c', EngineCode.notMyVBucket)) = fun x => decide (x = c) := rfl
        rw [this, hrev]
        exact countP_eq_one_of_nodup _ _ hnd hc

/-- C3 witness: at the dead vBucket `vbW3` (waiter cookie 1, pending op
cookie 42) for the sweep, and at `vbEx` for `setState(Dead)`. -/
theorem c3_notifications_happen_in_sweep_witness :
    ((vbEx.setState VBState.dead).2 = [] ∧
      (vbEx.setState VBState.dead).1.pendingOps = vbEx.pendingOps ∧
      (vbEx.setState VBState.dead).1.hpChks = vbEx.hpChks) ∧
    (1, EngineCode.tmpfail) ∈ (vbW3.notifyAllPendingConnsFailed).2.1 ∧
    (42, EngineCode.notMyVBucket) ∈ (vbW3.notifyAllPendingConnsFailed).2.2 ∧
    ((vbW3.notifyAllPendingConnsFailed).2.2).countP (fun p => p.1 = 42) = 1 := by
  have h := c3_notifications_happen_in_sweep
  have h2 := h.2 vbW3 (by decide) (by decide) (by decide) (by decide)
  exact ⟨h.1 vbEx VBState.dead,
         h2.1 1 (by decide) (by decide),
         (h2.2 42 (by decide)).1, (h2.2 42 (by decide)).2⟩

/-- C9 (counterexample): cookie 5 registered both as a high-priority
waiter and as a background-fetch waiter receives a single
`NotMyVBucket` notification — the background-fetch sweep overwrites the
waiter's `TempFail` binding in `toNotify`, so not every waiter-list
cookie is notified with `TempFail`. -/
theorem c9_tmpfail_can_be_swallowed :
    (5 ∈ hpCookies vbC9) ∧
    (vbC9.notifyAllPendingConnsFailed).2.1 = [(5, EngineCode.notMyVBucket)] ∧
    ¬ (5, EngineCode.tmpfail) ∈ (vbC9.notifyAllPendingConnsFailed).2.1 := by
  decide

/-- C9 (amended): provided no cookie is registered both in the
high-priority waiter list and in the background-fetch map, a call to
`notifyAllPendingConnsFailed` notifies every waiter-list cookie with
`TempFail` and every background-fetch cookie with `NotMyVBucket`; the
notification map binds each cookie at most once (so nobody is notified
twice), the sweep never aborts partway (every registered cookie of
either container is covered), and afterwards both containers are
empty. -/
theorem c9_notifyAllPendingConnsFailed (vb : VBucket)
    (hdisj : ∀ c ∈ hpCookies vb, c ∉ bgCookies vb) :
    (∀ c ∈ hpCookies vb,
      (c, EngineCode.tmpfail) ∈ (vb.notifyAllPendingConnsFailed).2.1) ∧
    (∀ c ∈ bgCookies vb,
      (c, EngineCode.notMyVBucket) ∈ (vb.notifyAllPendingConnsFailed).2.1) ∧
    (mapKeys (vb.notifyAllPendingConnsFailed).2.1).Nodup ∧
    (vb.notifyAllPendingConnsFailed).1.hpChks = [] ∧
    (vb.notifyAllPendingConnsFailed).1.pendingBGFetches = [] := by
  rw [notifyAllPendingConnsFailed_eq]
  refine ⟨?_, ?_, ?_, ?_, ?_⟩
  · intro c hc
    rcases List.mem_map.mp hc with ⟨e, he, rfl⟩
    exact notifyBgLoop_pres_ne _ _ _ _ (notifyHpLoop_mem _ _ e he)
      (bg_cookie_ne_of_not_mem vb e.cookie (hdisj _ hc))
  · intro c hc
    rcases bgCookies_elim vb c hc with ⟨p, hp, item, hi, rfl⟩
    exact notifyBgLoop_mem _ _ p item hp hi
  · exact notifyBgLoop_nodup _ _ (notifyHpLoop_nodup _ _ (by simp [mapKeys]))
  · exact (fireAllOpsForState_untouched _).1
  · exact (fireAllOpsForState_untouched _).2

/-! ## Printer lemmas (C6) -/

/-- Strings with equal character data are equal. -/
theorem str_data_ext (s t : String) (h : s.data = t.data) : s = t := by
  cases s
  cases t
  exact congrArg String.mk h

theorem countRun_cons_self (y : Nat) (ys : List Nat) :
    countRun y (y :: ys) = 1 + countRun (y + 1) ys := by
  simp [countRun]

theorem countRun_le_length : ∀ (l : List Nat) (val : Nat), countRun val l ≤ l.length := by
  intro l
  induction l with
  | nil => intro val; simp [countRun]
  | cons x xs ih =>
    intro val
    simp only [countRun, List.length_cons]
    split_ifs with h
    · have := ih (val + 1)
      omega
    · omega

/-- `chunkRuns` on a cons, given the shape of the tail's chunks. -/
theorem chunkRuns_cons_of_eq (x : Nat) (xs : List Nat) (hd : Nat) (tl : List Nat)
    (rest : List (List Nat)) (h : chunkRuns xs = (hd :: tl) :: rest) :
    chunkRuns (x :: xs) =
      if x + 1 = hd then (x :: hd :: tl) :: rest else [x] :: (hd :: tl) :: rest := by
  simp only [chunkRuns, h]

/-- `chunkRuns` on a cons whose tail chunks to nothing. -/
theorem chunkRuns_cons_of_nil (x : Nat) (xs : List Nat) (h : chunkRuns xs = []) :
    chunkRuns (x :: xs) = [[x]] := by
  simp only [chunkRuns, h]

/-- The first chunk is exactly the maximal leading run counted by
`countRun`, and the remaining chunks are those of the rest. -/
theorem chunkRuns_run (y : Nat) (ys : List Nat) :
    chunkRuns (y :: ys) =
      ((y :: ys).take (countRun y (y :: ys))) ::
        chunkRuns ((y :: ys).drop (countRun y (y :: ys))) := by
  induction ys generalizing y with
  | nil =>
    have h1 : countRun y [y] = 1 := by simp [countRun]
    rw [h1]
    simp [chunkRuns]
  | cons z zs ih =>
    have hzshape := ih z
    rw [countRun_cons_self z zs, Nat.add_comm 1 (countRun (z + 1) zs),
        List.take_succ_cons, List.drop_succ_cons] at hzshape
    rw [chunkRuns_cons_of_eq y (z :: zs) z (zs.take (countRun (z + 1) zs)) _ hzshape]
    by_cases hz : y + 1 = z
    · rw [if_pos hz]
      have hcy : countRun y (y :: z :: zs) = (countRun (z + 1) zs + 1) + 1 := by
        rw [← hz]
        simp [countRun]
        omega
      rw [hcy, List.take_succ_cons, List.take_succ_cons,
          List.drop_succ_cons, List.drop_succ_cons]
    · rw [if_neg hz]
      have hz' : ¬ z = y + 1 := fun h => hz h.symm
      have hcy : countRun y (y :: z :: zs) = 1 := by
        simp [countRun, hz']
      rw [hcy,
          show (y :: z :: zs).take 1 = [y] from rfl,
          show (y :: z :: zs).drop 1 = z :: zs from rfl,
          hzshape]

theorem chunkRuns_cons_ne_nil (x : Nat) (xs : List Nat) : chunkRuns (x :: xs) ≠ [] := by
  rw [chunkRuns_run]
  simp

/-- `joinComma` step equations. -/
theorem joinComma_pair (s t : String) (r : List String) :
    joinComma (s :: t :: r) = s ++ ", " ++ joinComma (t :: r) := rfl

/-- The default value of `getLastD` is irrelevant on nonempty lists. -/
theorem getLastD_irrel (t : List Nat) (a b : Nat) (h : t ≠ []) :
    t.getLastD a = t.getLastD b := by
  cases t with
  | nil => exact absurd rfl h
  | cons x xs => rfl

/-- The last element of `l.take n` is `l`'s `(n-1)`-th element. -/
theorem getLastD_take (l : List Nat) (n : Nat) (h1 : 1 ≤ n) (h2 : n ≤ l.length) :
    (l.take n).getLastD 0 = l.getD (n - 1) 0 := by
  induction l generalizing n with
  | nil => simp at h2; omega
  | cons a as ih =>
    obtain ⟨m, rfl⟩ : ∃ m, n = m + 1 := ⟨n - 1, by omega⟩
    rcases Nat.eq_zero_or_pos m with rfl | hm
    · rfl
    · rw [List.take_succ_cons, List.getLastD_cons,
          getLastD_irrel (as.take m) a 0 (by
            intro hnil
            have : (as.take m).length = 0 := by rw [hnil]; rfl
            rw [List.length_take] at this
            simp only [List.length_cons] at h2
            omega),
          ih m hm (by simp only [List.length_cons] at h2; omega)]
      simp only [Nat.add_sub_cancel]
      obtain ⟨m', rfl⟩ : ∃ m', m = m' + 1 := ⟨m - 1, by omega⟩
      rw [List.getD_cons_succ]
      simp

theorem printLoop_nil (needcomma : Bool) : printLoop needcomma [] = "" := by
  simp [printLoop]

/-- With the comma flag set, the printer prepends `", "` and continues
exactly as with the flag clear. -/
theorem printLoop_true (y : Nat) (ys : List Nat) :
    printLoop true (y :: ys) = ", " ++ printLoop false (y :: ys) := by
  apply str_data_ext
  simp only [printLoop]
  by_cases h : 1 < countRun y (y :: ys) - 1
  · simp [h, String.data_append]
  · simp [h, String.data_append]

theorem renderRun_single (y : Nat) : renderRun [y] = toString y := by
  simp [renderRun, joinComma]

theorem renderRun_pair (y w : Nat) :
    renderRun [y, w] = toString y ++ ", " ++ toString w := by
  simp [renderRun, joinComma]

/-- The printing loop agrees with the run-chunking description, by
strong induction on the list length. -/
theorem printLoop_false_spec :
    ∀ (n : Nat) (l : List Nat), l.length ≤ n →
      printLoop false l = joinComma ((chunkRuns l).map renderRun) := by
  intro n
  induction n with
  | zero =>
    intro l hl
    have hnil : l = [] := List.eq_nil_of_length_eq_zero (by omega)
    subst hnil
    simp [printLoop, chunkRuns, joinComma]
  | succ n ih =>
    intro l hl
    cases l with
    | nil => simp [printLoop, chunkRuns, joinComma]
    | cons y ys =>
      have hyslen : ys.length ≤ n := by
        simp only [List.length_cons] at hl
        omega
      rw [chunkRuns_run y ys, List.map_cons]
      have hk1 : 1 ≤ countRun y (y :: ys) := by
        rw [countRun_cons_self]
        omega
      have hkle : countRun y (y :: ys) ≤ (y :: ys).length := countRun_le_length _ _
      by_cases hrange : 1 < countRun y (y :: ys) - 1
      · -- the range branch of the printer
        have hlen : ((y :: ys).take (countRun y (y :: ys))).length =
            countRun y (y :: ys) := by
          rw [List.length_take]
          omega
        have hhead : ((y :: ys).take (countRun y (y :: ys))).headD 0 = y := by
          obtain ⟨m, hm⟩ : ∃ m, countRun y (y :: ys) = m + 1 :=
            ⟨countRun y (y :: ys) - 1, by omega⟩
          rw [hm, List.take_succ_cons]
          rfl
        have hrr : renderRun ((y :: ys).take (countRun y (y :: ys))) =
            "[" ++ toString y ++ ","
              ++ toString ((y :: ys).getD (countRun y (y :: ys) - 1) 0) ++ "]" := by
          rw [renderRun, if_pos (by rw [hlen]; omega), hhead,
              getLastD_take _ _ hk1 hkle]
        have hdrop : (y :: ys).drop (countRun y (y :: ys)) =
            ys.drop (countRun y (y :: ys) - 1) := by
          obtain ⟨m, hm⟩ : ∃ m, countRun y (y :: ys) = m + 1 :=
            ⟨countRun y (y :: ys) - 1, by omega⟩
          rw [hm, List.drop_succ_cons]
          simp
        have hstep : printLoop false (y :: ys) =
            "" ++ "[" ++ toString y ++ ","
              ++ toString ((y :: ys).getD (countRun y (y :: ys) - 1) 0) ++ "]"
              ++ printLoop true (ys.drop (countRun y (y :: ys) - 1)) := by
          simp only [printLoop]
          rw [if_pos hrange]
          rfl
        rw [hrr, hdrop]
        cases hd : ys.drop (countRun y (y :: ys) - 1) with
        | nil =>
          rw [hstep, hd]
          apply str_data_ext
          simp [chunkRuns, joinComma, printLoop_nil, String.data_append]
        | cons z zs =>
          have hlz : (z :: zs).length ≤ n := by
            have h1 : (ys.drop (countRun y (y :: ys) - 1)).length ≤ ys.length := by
              rw [List.length_drop]
              omega
            rw [hd] at h1
            omega
          have hih := ih (z :: zs) hlz
          rw [chunkRuns_run z zs, List.map_cons, joinComma_pair]
          rw [chunkRuns_run z zs, List.map_cons] at hih
          rw [← hih, hstep, hd, printLoop_true z zs]
          apply str_data_ext
          simp [String.data_append]
      · -- runs of length one or two are printed element by element
        have hstep1 : printLoop false (y :: ys) =
            "" ++ toString y ++ printLoop true ys := by
          simp only [printLoop]
          rw [if_neg hrange]
          rfl
        have hk12 : countRun y (y :: ys) = 1 ∨ countRun y (y :: ys) = 2 := by
          omega
        rcases hk12 with hk | hk
        · -- a run of length one
          rw [hk, show (y :: ys).take 1 = [y] from rfl,
              show (y :: ys).drop 1 = ys from rfl, renderRun_single]
          cases ys with
          | nil =>
            rw [hstep1]
            apply str_data_ext
            simp [chunkRuns, joinComma, printLoop_nil, String.data_append]
          | cons z zs =>
            have hih := ih (z :: zs) (by simpa using hyslen)
            rw [chunkRuns_run z zs, List.map_cons, joinComma_pair]
            rw [chunkRuns_run z zs, List.map_cons] at hih
            rw [← hih, hstep1, printLoop_true z zs]
            apply str_data_ext
            simp [String.data_append]
        · -- a run of length exactly two
          have hys1 : countRun (y + 1) ys = 1 := by
            have h2 := countRun_cons_self y ys
            omega
          cases ys with
          | nil => simp [countRun] at hys1
          | cons w ws =>
            by_cases hw : w = y + 1
            · have hws : countRun (w + 1) ws = 0 := by
                rw [hw]
                simp [countRun, hw] at hys1
                omega
              have hcw : countRun w (w :: ws) = 1 := by
                rw [countRun_cons_self, hws]
              have hstep2 : printLoop true (w :: ws) =
                  ", " ++ toString w ++ printLoop true ws := by
                simp only [printLoop]
                rw [if_neg (by omega)]
                rfl
              rw [hk, show (y :: w :: ws).take 2 = [y, w] from rfl,
                  show (y :: w :: ws).drop 2 = ws from rfl, renderRun_pair]
              cases ws with
              | nil =>
                rw [hstep1, hstep2]
                apply str_data_ext
                simp [chunkRuns, joinComma, printLoop_nil, String.data_append]
              | cons v vs =>
                have hih := ih (v :: vs) (by
                  simp only [List.length_cons] at hl ⊢
                  omega)
                rw [chunkRuns_run v vs, List.map_cons, joinComma_pair]
                rw [chunkRuns_run v vs, List.map_cons] at hih
                rw [← hih, hstep1, hstep2, printLoop_true v vs]
                apply str_data_ext
                simp [String.data_append]
            · simp [countRun, hw] at hys1

/-- `set_symmetric_difference` with an empty second range copies the
first. -/
theorem set_symmetric_difference_nil_right (a : List Nat) :
    set_symmetric_difference a [] = a := by
  cases a <;> simp [set_symmetric_difference]

/-- The symmetric-difference merge is commutative (on all inputs). -/
theorem set_symmetric_difference_comm (a b : List Nat) :
    set_symmetric_difference a b = set_symmetric_difference b a := by
  induction a, b using set_symmetric_difference.induct with
  | case1 b =>
    rw [set_symmetric_difference_nil_right]
    simp [set_symmetric_difference]
  | case2 x xs =>
    rw [set_symmetric_difference_nil_right]
    simp [set_symmetric_difference]
  | case3 x xs y ys h ih =>
    have h' : ¬ y < x := by omega
    rw [set_symmetric_difference, set_symmetric_difference,
        if_pos h, if_neg h', if_pos h, ih]
  | case4 x xs y ys h1 h2 ih =>
    rw [set_symmetric_difference, set_symmetric_difference,
        if_neg h1, if_pos h2, if_pos h2, ih]
  | case5 x xs y ys h1 h2 ih =>
    rw [set_symmetric_difference, set_symmetric_difference,
        if_neg h1, if_neg h2, if_neg h2, if_neg h1, ih]

/-- Membership in the symmetric-difference merge of two strictly-sorted
ranges: exactly the ids in exactly one of the two. -/
theorem mem_set_symmetric_difference :
    ∀ a b : List Nat, a.Pairwise (· < ·) → b.Pairwise (· < ·) → ∀ z : Nat,
      (z ∈ set_symmetric_difference a b ↔
        (z ∈ a ∧ z ∉ b) ∨ (z ∈ b ∧ z ∉ a)) := by
  intro a b
  induction a, b using set_symmetric_difference.induct with
  | case1 b =>
    intro _ _ z
    simp [set_symmetric_difference]
  | case2 x xs =>
    intro _ _ z
    simp [set_symmetric_difference]
  | case3 x xs y ys h ih =>
    intro ha hb z
    have hxxs : x ∉ xs := fun hx => by
      have := (List.pairwise_cons.mp ha).1 x hx
      omega
    have hxb : x ∉ y :: ys := by
      intro hx
      rcases List.mem_cons.mp hx with heq | hx'
      · omega
      · have := (List.pairwise_cons.mp hb).1 x hx'
        omega
    rw [set_symmetric_difference, if_pos h, List.mem_cons,
        ih (List.pairwise_cons.mp ha).2 hb z]
    by_cases hz : z = x
    · subst hz
      simp [hxb, hxxs]
    · simp only [List.mem_cons, hz, false_or]
  | case4 x xs y ys h1 h2 ih =>
    intro ha hb z
    have hyys : y ∉ ys := fun hy => by
      have := (List.pairwise_cons.mp hb).1 y hy
      omega
    have hya : y ∉ x :: xs := by
      intro hy
      rcases List.mem_cons.mp hy with heq | hy'
      · omega
      · have := (List.pairwise_cons.mp ha).1 y hy'
        omega
    rw [set_symmetric_difference, if_neg h1, if_pos h2, List.mem_cons,
        ih ha (List.pairwise_cons.mp hb).2 z]
    by_cases hz : z = y
    · subst hz
      simp [hya, hyys]
    · simp only [List.mem_cons, hz, false_or]
  | case5 x xs y ys h1 h2 ih =>
    intro ha hb z
    have hxy : x = y := by omega
    subst hxy
    have hxxs : x ∉ xs := fun hx => by
      have := (List.pairwise_cons.mp ha).1 x hx
      omega
    have hxys : x ∉ ys := fun hx => by
      have := (List.pairwise_cons.mp hb).1 x hx
      omega
    rw [set_symmetric_difference, if_neg h1, if_neg h2,
        ih (List.pairwise_cons.mp ha).2 (List.pairwise_cons.mp hb).2 z]
    by_cases hz : z = x
    · subst hz
      simp [hxxs, hxys]
    · simp only [List.mem_cons, hz, false_or]

/-- Membership in the intersection merge of two strictly-sorted ranges:
exactly the ids in both. -/
theorem mem_set_intersection :
    ∀ a b : List Nat, a.Pairwise (· < ·) → b.Pairwise (· < ·) → ∀ z : Nat,
      (z ∈ set_intersection a b ↔ z ∈ a ∧ z ∈ b) := by
  intro a b
  induction a, b using set_intersection.induct with
  | case1 b =>
    intro _ _ z
    simp [set_intersection]
  | case2 x xs =>
    intro _ _ z
    simp [set_intersection]
  | case3 x xs y ys h ih =>
    intro ha hb z
    have hxb : x ∉ y :: ys := by
      intro hx
      rcases List.mem_cons.mp hx with heq | hx'
      · omega
      · have := (List.pairwise_cons.mp hb).1 x hx'
        omega
    rw [set_intersection, if_pos h, ih (List.pairwise_cons.mp ha).2 hb z]
    by_cases hz : z = x
    · subst hz
      simp [hxb]
    · simp only [List.mem_cons, hz, false_or]
  | case4 x xs y ys h1 h2 ih =>
    intro ha hb z
    have hya : y ∉ x :: xs := by
      intro hy
      rcases List.mem_cons.mp hy with heq | hy'
      · omega
      · have := (List.pairwise_cons.mp ha).1 y hy'
        omega
    rw [set_intersection, if_neg h1, if_pos h2, ih ha (List.pairwise_cons.mp hb).2 z]
    by_cases hz : z = y
    · subst hz
      simp [hya]
    · simp only [List.mem_cons, hz, false_or]
  | case5 x xs y ys h1 h2 ih =>
    intro ha hb z
    have hxy : x = y := by omega
    subst hxy
    rw [set_intersection, if_neg h1, if_neg h2, List.mem_cons,
        ih (List.pairwise_cons.mp ha).2 (List.pairwise_cons.mp hb).2 z]
    by_cases hz : z = x
    · subst hz
      simp
    · simp only [List.mem_cons, hz, false_or]

/-- C6: the `VBucketFilter` stream printer prints `{ empty }` for the
empty filter and otherwise prints the ids inside `{ ... }` separated by
commas in list order, collapsing every maximal run of three or more
consecutive ids into `[lo,hi]` and printing shorter runs element by
element — i.e. it coincides with the run-chunking printer written from
the claim. -/
theorem c6_vbFilterPrint_spec (filter : VBucketFilter) :
    vbFilterPrint filter = vbFilterPrintSpec filter := by
  unfold vbFilterPrint vbFilterPrintSpec
  by_cases h : filter.acceptable.isEmpty
  · rw [if_pos h, if_pos h]
  · rw [if_neg h, if_neg h,
        printLoop_false_spec filter.acceptable.length filter.acceptable le_rfl]

/-- C7: `filter_diff` is the symmetric difference (an id is in the
result iff it is in exactly one operand), `filter_diff` is commutative,
and `filter_intersection` holds exactly the ids present in both —
for filters holding strictly-sorted id sets (the `std::set`
invariant). -/
theorem c7_filter_diff_intersection (a b : VBucketFilter)
    (ha : a.acceptable.Pairwise (· < ·)) (hb : b.acceptable.Pairwise (· < ·)) :
    (∀ z, z ∈ (a.filter_diff b).acceptable ↔
      ((z ∈ a.acceptable ∧ z ∉ b.acceptable) ∨
       (z ∈ b.acceptable ∧ z ∉ a.acceptable))) ∧
    a.filter_diff b = b.filter_diff a ∧
    (∀ z, z ∈ (a.filter_intersection b).acceptable ↔
      z ∈ a.acceptable ∧ z ∈ b.acceptable) := by
  refine ⟨fun z => mem_set_symmetric_difference _ _ ha hb z, ?_,
          fun z => mem_set_intersection _ _ ha hb z⟩
  unfold VBucketFilter.filter_diff
  rw [set_symmetric_difference_comm]

/-- C7 witness: at the filters `{1,2,3}` and `{2,4}`. -/
theorem c7_filter_diff_intersection_witness :
    (4 ∈ (VBucketFilter.filter_diff ⟨[1, 2, 3]⟩ ⟨[2, 4]⟩).acceptable ∧
      2 ∉ (VBucketFilter.filter_diff ⟨[1, 2, 3]⟩ ⟨[2, 4]⟩).acceptable) ∧
    VBucketFilter.filter_diff ⟨[1, 2, 3]⟩ ⟨[2, 4]⟩ =
      VBucketFilter.filter_diff ⟨[2, 4]⟩ ⟨[1, 2, 3]⟩ ∧
    (2 ∈ (VBucketFilter.filter_intersection ⟨[1, 2, 3]⟩ ⟨[2, 4]⟩).acceptable ∧
      5 ∉ (VBucketFilter.filter_intersection ⟨[1, 2, 3]⟩ ⟨[2, 4]⟩).acceptable) := by
  have h := c7_filter_diff_intersection ⟨[1, 2, 3]⟩ ⟨[2, 4]⟩ (by decide) (by decide)
  refine ⟨⟨(h.1 4).mpr (Or.inr (by decide)), fun hm => ?_⟩, h.2.1,
          (h.2.2 2).mpr (by decide), fun hm => ?_⟩
  · rcases (h.1 2).mp hm with ⟨_, h2⟩ | ⟨_, h2⟩
    · exact h2 (by decide)
    · exact h2 (by decide)
  · have := (h.2.2 5).mp hm
    rcases this with ⟨h5, _⟩
    revert h5
    decide

/-- C9 witness: at `vbW9` (waiter cookie 1; background-fetch cookies 2
and 4). -/
theorem c9_notifyAllPendingConnsFailed_witness :
    (1, EngineCode.tmpfail) ∈ (vbW9.notifyAllPendingConnsFailed).2.1 ∧
    (2, EngineCode.notMyVBucket) ∈ (vbW9.notifyAllPendingConnsFailed).2.1 ∧
    (4, EngineCode.notMyVBucket) ∈ (vbW9.notifyAllPendingConnsFailed).2.1 ∧
    (mapKeys (vbW9.notifyAllPendingConnsFailed).2.1).Nodup ∧
    (vbW9.notifyAllPendingConnsFailed).1.hpChks = [] ∧
    (vbW9.notifyAllPendingConnsFailed).1.pendingBGFetches = [] := by
  have h := c9_notifyAllPendingConnsFailed vbW9 (by decide)
  exact ⟨h.1 1 (by decide), h.2.1 2 (by decide), h.2.1 4 (by decide),
         h.2.2.1, h.2.2.2.1, h.2.2.2.2⟩

end KVEngine
